import Mathlib

/-!
# Verification of the NIXL backend-engine core

Shallow embedding of the two reference backend engines of NIXL (the UCX
RDMA engine in `src/plugins/ucx/ucx_backend.cpp` and the object-storage
engine in `src/plugins/obj/obj_backend.cpp` together with
`src/plugins/obj/obj_s3_client.cpp`), and proofs about the embedded
operations.

External effects (UCX worker operations, S3 outcomes) are modelled as
explicit oracle parameters; machine-word values are modelled as `Nat`
(none of the verified paths performs wrapping arithmetic).
-/

namespace Nixl

/-- The subset of `nixl_status_t` values produced by the modelled code
paths.  In C, `NIXL_SUCCESS = 0`, `NIXL_IN_PROG > 0` and the error codes
are negative; `isErr` mirrors the `status < 0` checks of the source. -/
inductive NixlStatus
  | success
  | inProg
  | invalidParam
  | notFound
  | notSupported
  | backendErr
deriving DecidableEq

/-- The test `isErr s` is `true` exactly when `s` is one of the negative
(`NIXL_ERR_*`) codes, i.e. when a C-side `ret < 0` test succeeds. -/
def isErr : NixlStatus → Bool
  | .success => false
  | .inProg => false
  | _ => true

/-! ## UCX engine: connection management

`nixlUcxEngine` keeps `remoteConnMap : remote_agent → nixlUcxConnection`.
A connection stores the remote agent name, one endpoint per worker, and a
`connected` flag.  Endpoints are modelled by the index of the worker that
created them. -/

/-- Embedding of `nixlUcxConnection` (agent name, per-worker endpoints,
liveness flag). -/
structure UcxConn where
  remoteAgent : String
  eps : List Nat
  connected : Bool
deriving DecidableEq

/-- Lookup (`remoteConnMap.find`) on the association-list model of the connection
table (`std::unordered_map` with unique keys). -/
def connLookup : List (String × UcxConn) → String → Option UcxConn
  | [], _ => none
  | (a, c) :: rest, agent => if a = agent then some c else connLookup rest agent

/-- The endpoint-creation loop of `nixlUcxEngine::loadRemoteConnInfo`:
for each worker in order call `uw->connect` (outcome given by the oracle
`connRes`, `true` = created); on the first failure stop with the
endpoints created so far and the error flag set. -/
def epLoop (connRes : Nat → Bool) : Nat → Nat → List Nat → List Nat × Bool
  | 0, _, eps => (eps, false)
  | k + 1, w, eps =>
    if connRes w then epLoop connRes k (w + 1) (eps ++ [w]) else (eps, true)

/-- Embedding of `nixlUcxEngine::loadRemoteConnInfo`.  Returns the
status, the connection table after the call, and the list of endpoints
that were disconnected by the rollback path (empty when no rollback
happened).  An agent already present in the table is rejected with
`InvalidParam` before any endpoint is created; an endpoint-creation
failure disconnects every endpoint created by this call and returns
`BackendError` without touching the table; otherwise the new connection
(one endpoint per worker, `connected = false`) is inserted. -/
def loadRemoteConnInfo (table : List (String × UcxConn)) (agent : String)
    (connRes : Nat → Bool) (numWorkers : Nat) :
    NixlStatus × List (String × UcxConn) × List Nat :=
  if (connLookup table agent).isSome then (.invalidParam, table, [])
  else
    match epLoop connRes numWorkers 0 [] with
    | (eps, true) => (.backendErr, table, eps)
    | (eps, false) => (.success, table ++ [(agent, ⟨agent, eps, false⟩)], [])

/-- Embedding of `nixlUcxEngine::connect`.  For `remote == local` it
delegates to `loadRemoteConnInfo` on the engine's own worker address.
Otherwise an unknown agent gives `NotFound`; for a known agent a
`CONN_CHECK` active message is sent on every worker's endpoint
(submission results given by the oracle `sendRes`) and the source then
returns `error ? NIXL_SUCCESS : NIXL_ERR_BACKEND` — the inverted return
is reproduced verbatim here. -/
def ucxConnect (localAgent : String) (table : List (String × UcxConn))
    (connRes : Nat → Bool) (numWorkers : Nat) (sendRes : Nat → NixlStatus)
    (remoteAgent : String) : NixlStatus × List (String × UcxConn) :=
  if remoteAgent = localAgent then
    let r := loadRemoteConnInfo table remoteAgent connRes numWorkers
    (r.1, r.2.1)
  else
    match connLookup table remoteAgent with
    | none => (.notFound, table)
    | some _ =>
      if (List.range numWorkers).any (fun i => isErr (sendRes i)) then
        (.success, table)
      else (.backendErr, table)

/-! ## UCX engine: notification draining -/

/-- Embedding of `nixlUcxEngine::getNotifs`.  `mainList` and `pthrList`
are the contents of `notifMainList` and `notifPthr` at drain time (any
notifications delivered by the `progress()` pumping that precedes the
drain are part of `mainList`).  A non-empty output list is rejected with
`InvalidParam` before anything is drained; otherwise both internal lists
are moved, in order, behind the caller's (empty) list. -/
def getNotifs (mainList pthrList notifList : List (String × String)) :
    NixlStatus × List (String × String) × List (String × String) ×
      List (String × String) :=
  if notifList.length ≠ 0 then (.invalidParam, notifList, mainList, pthrList)
  else (.success, (notifList ++ mainList) ++ pthrList, [], [])

/-! ## Lemmas about the endpoint-creation loop -/

theorem epLoop_all_ok (connRes : Nat → Bool) :
    ∀ k w eps, (∀ i, w ≤ i → i < w + k → connRes i = true) →
      epLoop connRes k w eps = (eps ++ List.range' w k, false) := by
  intro k
  induction k with
  | zero => intro w eps _; simp [epLoop]
  | succ k ih =>
    intro w eps h
    have hw : connRes w = true := h w le_rfl (by omega)
    have := ih (w + 1) (eps ++ [w]) (fun i h1 h2 => h i (by omega) (by omega))
    simp only [epLoop, hw, if_pos]
    rw [this, List.range'_succ]
    simp

theorem epLoop_first_fail (connRes : Nat → Bool) :
    ∀ k w eps f, w ≤ f → f < w + k → connRes f = false →
      (∀ i, w ≤ i → i < f → connRes i = true) →
      epLoop connRes k w eps = (eps ++ List.range' w (f - w), true) := by
  intro k
  induction k with
  | zero => intro w eps f h1 h2; omega
  | succ k ih =>
    intro w eps f h1 h2 hf hpre
    rcases Nat.eq_or_lt_of_le h1 with heq | hlt
    · subst heq
      simp [epLoop, hf]
    · have hw : connRes w = true := hpre w le_rfl hlt
      have := ih (w + 1) (eps ++ [w]) f hlt (by omega) hf
        (fun i hi1 hi2 => hpre i (by omega) hi2)
      simp only [epLoop, hw, if_pos]
      rw [this]
      have hsub : f - w = (f - (w + 1)) + 1 := by omega
      rw [hsub, List.range'_succ]
      simp

/-! ## Claim theorems: connection management -/

/-- Claim C8: in the RDMA engine, if endpoint creation fails for some
worker during `load_remote_connection_info` (first failure at worker
`f`), the endpoints already created by the call (those of workers
`0, …, f-1`) are disconnected, no entry is added to the connection
table, and the call returns `BackendError`; if every endpoint is created
the agent is added to the table (one endpoint per worker) and the call
returns `Success`. -/
theorem C8_load_remote_conn_rollback (table : List (String × UcxConn))
    (agent : String) (connRes : Nat → Bool) (numWorkers : Nat)
    (habs : connLookup table agent = none) :
    (∀ f, f < numWorkers → connRes f = false →
      (∀ w, w < f → connRes w = true) →
      loadRemoteConnInfo table agent connRes numWorkers
        = (.backendErr, table, List.range f)) ∧
    ((∀ w, w < numWorkers → connRes w = true) →
      loadRemoteConnInfo table agent connRes numWorkers
        = (.success, table ++ [(agent, ⟨agent, List.range numWorkers, false⟩)],
           [])) := by
  constructor
  · intro f hf hfail hpre
    have := epLoop_first_fail connRes numWorkers 0 [] f (Nat.zero_le f)
      (by omega) hfail (fun i _ h2 => hpre i h2)
    simp only [loadRemoteConnInfo, habs, Option.isSome_none, Bool.false_eq_true,
      if_false, this]
    simp [List.range_eq_range']
  · intro hall
    have := epLoop_all_ok connRes numWorkers 0 [] (fun i _ h2 => hall i (by omega))
    simp only [loadRemoteConnInfo, habs, Option.isSome_none, Bool.false_eq_true,
      if_false, this]
    simp [List.range_eq_range']

/-- Witness for C8 at a concrete input: worker 1 of 3 fails, so endpoint 0
is rolled back; and with no failures the agent is inserted. -/
theorem C8_load_remote_conn_rollback_witness :
    loadRemoteConnInfo [] "peer" (fun w => w ≠ 1) 3
      = (.backendErr, [], List.range 1) ∧
    loadRemoteConnInfo [] "peer" (fun _ => true) 3
      = (.success, [("peer", ⟨"peer", List.range 3, false⟩)], []) := by
  constructor
  · exact (C8_load_remote_conn_rollback [] "peer" (fun w => w ≠ 1) 3 rfl).1 1
      (by decide) (by decide) (by decide)
  · have := (C8_load_remote_conn_rollback [] "peer" (fun _ => true) 3 rfl).2
      (fun w _ => rfl)
    simpa using this

/-- Claim C10: `load_remote_connection_info` called with an agent already
present in the connection table returns `InvalidParam`, and the table —
including the existing entry for that agent — is unchanged. -/
theorem C10_load_remote_conn_duplicate (table : List (String × UcxConn))
    (agent : String) (connRes : Nat → Bool) (numWorkers : Nat) (c : UcxConn)
    (hmem : connLookup table agent = some c) :
    loadRemoteConnInfo table agent connRes numWorkers
        = (.invalidParam, table, []) ∧
    connLookup table agent = some c := by
  refine ⟨?_, hmem⟩
  simp [loadRemoteConnInfo, hmem]

/-- Witness for C10 at a concrete table. -/
theorem C10_load_remote_conn_duplicate_witness :
    loadRemoteConnInfo [("peer", ⟨"peer", [0], true⟩)] "peer" (fun _ => true) 2
        = (.invalidParam, [("peer", ⟨"peer", [0], true⟩)], []) ∧
    connLookup [("peer", ⟨"peer", [0], true⟩)] "peer" = some ⟨"peer", [0], true⟩ :=
  C10_load_remote_conn_duplicate [("peer", ⟨"peer", [0], true⟩)] "peer"
    (fun _ => true) 2 ⟨"peer", [0], true⟩ (by decide)

/-- Claim C2 (code bug): for a remote agent present in the connection
table, `nixlUcxEngine::connect` returns the INVERSE of the intended
status: when every `CONN_CHECK` active-message submission succeeds the
source's `error ? NIXL_SUCCESS : NIXL_ERR_BACKEND` yields `BackendError`,
and when a submission fails it yields `Success`.  Evaluated here at a
concrete one-worker configuration. -/
theorem C2_connect_inverted_eval :
    ucxConnect "A" [("B", ⟨"B", [0], false⟩)] (fun _ => true) 1
        (fun _ => .success) "B"
      = (.backendErr, [("B", ⟨"B", [0], false⟩)]) ∧
    ucxConnect "A" [("B", ⟨"B", [0], false⟩)] (fun _ => true) 1
        (fun _ => .backendErr) "B"
      = (.success, [("B", ⟨"B", [0], false⟩)]) := by
  constructor <;> rfl

/-- Claim C9: `get_notifications` with a non-empty output list returns
`InvalidParam` and drains neither internal notification list;
notifications are moved (main list first, then progress-thread list)
into the caller's list only when it is passed in empty. -/
theorem C9_get_notifs (mainList pthrList notifList : List (String × String)) :
    (notifList ≠ [] →
      getNotifs mainList pthrList notifList
        = (.invalidParam, notifList, mainList, pthrList)) ∧
    getNotifs mainList pthrList []
      = (.success, mainList ++ pthrList, [], []) := by
  constructor
  · intro h
    have : notifList.length ≠ 0 := by
      simpa [List.length_eq_zero] using h
    simp [getNotifs, this]
  · simp [getNotifs]

/-- Witness for C9 at concrete lists. -/
theorem C9_get_notifs_witness :
    getNotifs [("a", "m1")] [("b", "m2")] [("c", "m3")]
      = (.invalidParam, [("c", "m3")], [("a", "m1")], [("b", "m2")]) ∧
    getNotifs [("a", "m1")] [("b", "m2")] []
      = (.success, [("a", "m1"), ("b", "m2")], [], []) :=
  ⟨(C9_get_notifs [("a", "m1")] [("b", "m2")] [("c", "m3")]).1 (by decide),
   (C9_get_notifs [("a", "m1")] [("b", "m2")] []).2⟩

/-! ## Object engine (source under `src/plugins/obj/`)

Data model of `nixl_mem_t`, the blob/meta descriptors, the
`nixlObjMetadata` registration state and the `dev_id_to_obj_key` index
(an `std::unordered_map` with unique keys, modelled as an association
list kept duplicate-free by the insert below). -/

/-- Embedding of `nixl_mem_t` segment kinds. -/
inductive MemKind
  | dram
  | vram
  | blk
  | obj
  | file
deriving DecidableEq

/-- Embedding of `nixl_xfer_op_t` (`NIXL_READ` / `NIXL_WRITE`). -/
inductive XferOp
  | read
  | write
deriving DecidableEq

/-- Embedding of `nixlObjMetadata` (`nixl_mem`, `dev_id`, `obj_key`). -/
structure ObjMeta where
  mem : MemKind
  devId : Nat
  objKey : String
deriving DecidableEq

/-- Embedding of a `nixlMetaDesc` element of a `nixl_meta_dlist_t`:
address, length, device id and the per-registration metadata pointer
(`none` models a null `metadataP`). -/
structure ObjDescM where
  addr : Nat
  len : Nat
  devId : Nat
  metadataP : Option ObjMeta
deriving DecidableEq

/-- Embedding of `nixl_meta_dlist_t`: a single memory kind plus an
ordered descriptor sequence. -/
structure MetaDlist where
  kind : MemKind
  descs : List ObjDescM
deriving DecidableEq

/-- Embedding of `nixlObjBackendReqH`: the request handle's observable
prep/post-time state is its `completed_` flag (`false` on a fresh
handle). -/
structure ObjReqHandle where
  completed : Bool
deriving DecidableEq

/-- Insertion (`map[devId] = key`) on the `dev_id_to_obj_key` index (overwrite
semantics of `std::unordered_map::operator[]`). -/
def indexInsert : List (Nat × String) → Nat → String → List (Nat × String)
  | [], d, k => [(d, k)]
  | (d', k') :: rest, d, k =>
    if d' = d then (d, k) :: rest else (d', k') :: indexInsert rest d k

/-- Removal (`map.erase(devId)`) on the `dev_id_to_obj_key` index. -/
def indexErase : List (Nat × String) → Nat → List (Nat × String)
  | [], _ => []
  | (d', k') :: rest, d =>
    if d' = d then rest else (d', k') :: indexErase rest d

/-- Lookup (`map.find(devId)`) on the `dev_id_to_obj_key` index. -/
def indexFind : List (Nat × String) → Nat → Option String
  | [], _ => none
  | (d', k') :: rest, d => if d' = d then some k' else indexFind rest d

/-- Embedding of `nixlObjEngine::registerMem`: always succeeds and
returns fresh metadata; for an `OBJ_SEG` registration the object key is
`metaInfo`, or the decimal print of `devId` when `metaInfo` is empty,
and the key is recorded in the `dev_id_to_obj_key` index. -/
def objRegisterMem (keyIndex : List (Nat × String)) (devId : Nat)
    (metaInfo : String) (mem : MemKind) :
    NixlStatus × ObjMeta × List (Nat × String) :=
  if mem = .obj then
    let key := if metaInfo = "" then toString devId else metaInfo
    (.success, ⟨mem, devId, key⟩, indexInsert keyIndex devId key)
  else (.success, ⟨mem, devId, ""⟩, keyIndex)

/-- Embedding of `nixlObjEngine::deregisterMem`: for an `OBJ_SEG`
registration the device id is erased from the `dev_id_to_obj_key`
index; the call always returns `Success`. -/
def objDeregisterMem (keyIndex : List (Nat × String)) (md : ObjMeta) :
    NixlStatus × List (Nat × String) :=
  if md.mem = .obj then (.success, indexErase keyIndex md.devId)
  else (.success, keyIndex)

/-- Embedding of `nixlObjEngine::prepXfer` as found under `src/`: it
inspects none of its arguments, unconditionally allocates a fresh
handle (`completed_ = false`) and returns `Success`. -/
def objPrepXfer (localAgent : String) (operation : XferOp)
    (localL remoteL : MetaDlist) (remoteAgent : String) :
    NixlStatus × Option ObjReqHandle :=
  (.success, some ⟨false⟩)

/-- One asynchronous S3 sub-operation dispatched by the object engine:
a whole-object PUT of `len` bytes from `addr`, or a GET into `addr` of
at most `len` bytes. -/
inductive S3Dispatch
  | put (objKey : String) (addr len : Nat)
  | get (objKey : String) (addr len : Nat)
deriving DecidableEq

/-- Embedding of `nixlObjEngine::postXfer` as found under `src/`: it
reads only `remote.begin()` and `local.begin()`.  A null metadata
pointer or an empty object key gives `InvalidParam`; otherwise
`completed_` is reset and a single whole-object PUT (`NIXL_WRITE`) or
GET (`NIXL_READ`) is dispatched for the head descriptor pair, returning
`InProgress`.  Dereferencing `begin()` of an empty list is undefined in
the source, hence the `Option`. -/
def objPostXfer (operation : XferOp) (localL remoteL : MetaDlist)
    (remoteAgent : String) (h : ObjReqHandle) :
    Option (NixlStatus × ObjReqHandle × List S3Dispatch) :=
  match localL.descs, remoteL.descs with
  | lhead :: _, rhead :: _ =>
    match rhead.metadataP with
    | none => some (.invalidParam, h, [])
    | some md =>
      if md.objKey = "" then some (.invalidParam, h, [])
      else
        match operation with
        | .write => some (.inProg, ⟨false⟩, [.put md.objKey lhead.addr lhead.len])
        | .read => some (.inProg, ⟨false⟩, [.get md.objKey lhead.addr lhead.len])
  | _, _ => none

/-! ## Claim theorems: object-engine prep and post (source variant) -/

/-- Claim C1, counterexample: a `prep_transfer` call violating all three
documented conditions (local kind `Object` rather than `HostDRAM`,
remote kind `HostDRAM` rather than `Object`, and
`remote_agent = "other" ≠ "test-agent" = local_agent`) nevertheless
returns a status other than `InvalidParam` and creates a handle — the
source `prepXfer` performs no validation. -/
theorem C1_prep_no_validation_counterexample :
    (objPrepXfer "test-agent" .write ⟨.obj, [⟨0, 4, 1, none⟩]⟩
        ⟨.dram, [⟨0, 4, 2, none⟩]⟩ "other").1 ≠ .invalidParam ∧
    (objPrepXfer "test-agent" .write ⟨.obj, [⟨0, 4, 1, none⟩]⟩
        ⟨.dram, [⟨0, 4, 2, none⟩]⟩ "other").2 ≠ none ∧
    "other" ≠ "test-agent" := by
  refine ⟨by decide, by decide, by decide⟩

/-- Claim C1 as amended: every call to the object engine's
`prep_transfer`, regardless of descriptor-list kinds or `remote_agent`,
returns `Success` together with a fresh empty handle; no parameter
validation is performed. -/
theorem C1_prep_always_succeeds (localAgent : String) (operation : XferOp)
    (localL remoteL : MetaDlist) (remoteAgent : String) :
    objPrepXfer localAgent operation localL remoteL remoteAgent
      = (.success, some ⟨false⟩) := rfl

/-- Claim C3 (code bug): the object engine's `postXfer` under `src/`
inspects only `remote.begin()`: a Write with TWO descriptor pairs
dispatches exactly ONE asynchronous PUT, for the head pair's key and
local buffer, whereas the claim requires one sub-operation per pair. -/
theorem C3_post_single_dispatch_eval :
    objPostXfer .write ⟨.dram, [⟨100, 8, 1, none⟩, ⟨200, 8, 1, none⟩]⟩
        ⟨.obj, [⟨0, 8, 2, some ⟨.obj, 2, "k1"⟩⟩, ⟨0, 8, 3, some ⟨.obj, 3, "k2"⟩⟩]⟩
        "test-agent" ⟨false⟩
      = some (.inProg, ⟨false⟩, [.put "k1" 100 8]) ∧
    ([S3Dispatch.put "k1" 100 8] : List S3Dispatch).length = 1 := by
  refine ⟨by decide, rfl⟩

/-! ## Object engine: multi-descriptor post over `IS3Client`

`src/` carries the `IS3Client` abstraction (`obj_s3_client.h/.cpp`) and
its gtest, but the engine variant that drives it (the multi-descriptor
`post_transfer`) is not under `src/`; it is modelled from the spec
below.  The per-operation client behaviour is translated from the
source `AwsS3Client`. -/

/-- One dispatch of the `IS3Client` per descriptor pair: a PUT rejected
client-side, a PUT upload, or a GET fetch (ranged
`[offset, offset+len-1]` when `offset > 0`, whole-object otherwise). -/
inductive SpecDispatch
  | putRejected
  | putUpload (objKey : String) (addr len : Nat)
  | getFetch (objKey : String) (addr len offset : Nat)
deriving DecidableEq

/-- Embedding of `AwsS3Client::PutObjectAsync` (source under `src/`):
a non-zero offset is unsupported — the completion callback is invoked
immediately with `false` and no S3 request is issued; at offset zero an
upload of `len` bytes from `addr` is dispatched. -/
def putObjectAsync (objKey : String) (addr len offset : Nat) : SpecDispatch :=
  if offset ≠ 0 then .putRejected else .putUpload objKey addr len

/-- Embedding of `AwsS3Client::GetObjectAsync` (source under `src/`):
always dispatches a fetch; the request carries the byte range
`[offset, offset+len-1]` exactly when `offset > 0`. -/
def getObjectAsync (objKey : String) (addr len offset : Nat) : SpecDispatch :=
  .getFetch objKey addr len offset

/-- The boolean passed to a dispatch's completion callback: a rejected
PUT always reports `false`; an upload or fetch reports the store's
outcome (`outcomeOk`). -/
def dispatchResult (outcomeOk : Bool) : SpecDispatch → Bool
  | .putRejected => false
  | .putUpload _ _ _ => outcomeOk
  | .getFetch _ _ _ _ => outcomeOk

/-- Modelled from the spec: the multi-descriptor object-engine
`post_transfer` (spec §4.3, step 2; §9 names it the intended design —
its implementation is not under `src/`, only its gtest and the
`IS3Client` it drives are).  Descriptor pairs are walked in order; for
each pair the object key is looked up by `remote.devId` in the
`dev_id_to_obj_key` index (a missing key is the pre-flight validation
failure `InvalidParam`), and one `put_async(key, local.addr, local.len,
remote.addr)` (Write) or `get_async(...)` (Read) is dispatched. -/
def specObjPostXfer (keyIndex : List (Nat × String)) (op : XferOp) :
    List (ObjDescM × ObjDescM) → Except NixlStatus (List SpecDispatch)
  | [] => .ok []
  | (l, r) :: rest =>
    match indexFind keyIndex r.devId with
    | none => .error .invalidParam
    | some key =>
      match specObjPostXfer keyIndex op rest with
      | .error e => .error e
      | .ok ds =>
        match op with
        | .write => .ok (putObjectAsync key l.addr l.len r.addr :: ds)
        | .read => .ok (getObjectAsync key l.addr l.len r.addr :: ds)

/-- The callback results of a dispatch list, position `i` receiving the
store outcome `outcome (j + i)` (`j` is the index of the first
dispatch). -/
def dispatchResults (outcome : Nat → Bool) :
    List SpecDispatch → Nat → List Bool
  | [], _ => []
  | d :: rest, j => dispatchResult (outcome j) d :: dispatchResults outcome rest (j + 1)

/-- Modelled from the spec: the aggregate handle status once every
completion future has resolved (spec §4.3, step 4: a ready non-success
latches the error; the handle reaches `Success` only when every future
holds `Success`). -/
def specFinalStatus (results : List Bool) : NixlStatus :=
  if results.all (fun b => b) then .success else .backendErr

/-! ## Lemmas about the key index and the multi-descriptor post -/

theorem indexFind_not_mem (d : Nat) :
    ∀ l : List (Nat × String), d ∉ l.map Prod.fst → indexFind l d = none := by
  intro l
  induction l with
  | nil => intro _; rfl
  | cons head rest ih =>
    obtain ⟨d', k'⟩ := head
    intro h
    simp only [List.map_cons, List.mem_cons] at h
    push_neg at h
    have hne : d' ≠ d := fun he => h.1 he.symm
    simp only [indexFind, if_neg hne]
    exact ih h.2

theorem indexFind_erase_self (d : Nat) :
    ∀ l : List (Nat × String), (l.map Prod.fst).Nodup →
      indexFind (indexErase l d) d = none := by
  intro l
  induction l with
  | nil => intro _; rfl
  | cons head rest ih =>
    obtain ⟨d', k'⟩ := head
    intro hnd
    simp only [List.map_cons, List.nodup_cons] at hnd
    by_cases hd : d' = d
    · subst hd
      simp only [indexErase, if_pos rfl]
      exact indexFind_not_mem d' rest hnd.1
    · simp only [indexErase, if_neg hd, indexFind, if_neg hd]
      exact ih hnd.2

theorem specObjPostXfer_err_of_missing (keyIndex : List (Nat × String))
    (op : XferOp) :
    ∀ pairs : List (ObjDescM × ObjDescM),
      (∃ p ∈ pairs, indexFind keyIndex p.2.devId = none) →
      specObjPostXfer keyIndex op pairs = .error .invalidParam := by
  intro pairs
  induction pairs with
  | nil => rintro ⟨p, hp, _⟩; cases hp
  | cons head rest ih =>
    rintro ⟨p, hp, hnone⟩
    rcases List.mem_cons.mp hp with heq | hmem
    · subst heq
      obtain ⟨l, r⟩ := p
      simp only [specObjPostXfer]
      rw [hnone]
    · obtain ⟨l, r⟩ := head
      simp only [specObjPostXfer]
      cases hfind : indexFind keyIndex r.devId with
      | none => rfl
      | some key =>
        rw [ih ⟨p, hmem, hnone⟩]

theorem specObjPostXfer_ok_nth (keyIndex : List (Nat × String)) :
    ∀ pairs : List (ObjDescM × ObjDescM), ∀ ds : List SpecDispatch,
      specObjPostXfer keyIndex .write pairs = .ok ds →
      ds.length = pairs.length ∧
      ∀ i, i < pairs.length →
        ∃ key, indexFind keyIndex
            (pairs.getD i (⟨0, 0, 0, none⟩, ⟨0, 0, 0, none⟩)).2.devId = some key ∧
          ds.getD i (.putUpload "" 0 0)
            = putObjectAsync key
                (pairs.getD i (⟨0, 0, 0, none⟩, ⟨0, 0, 0, none⟩)).1.addr
                (pairs.getD i (⟨0, 0, 0, none⟩, ⟨0, 0, 0, none⟩)).1.len
                (pairs.getD i (⟨0, 0, 0, none⟩, ⟨0, 0, 0, none⟩)).2.addr := by
  intro pairs
  induction pairs with
  | nil =>
    intro ds h
    simp only [specObjPostXfer] at h
    cases h
    exact ⟨rfl, fun i hi => absurd hi (by simp)⟩
  | cons head rest ih =>
    intro ds h
    obtain ⟨l, r⟩ := head
    simp only [specObjPostXfer] at h
    cases hfind : indexFind keyIndex r.devId with
    | none => rw [hfind] at h; cases h
    | some key =>
      rw [hfind] at h
      cases hrest : specObjPostXfer keyIndex .write rest with
      | error e => rw [hrest] at h; cases h
      | ok ds' =>
        rw [hrest] at h
        cases h
        obtain ⟨hlen, hnth⟩ := ih ds' hrest
        refine ⟨by simpa using hlen, ?_⟩
        intro i hi
        cases i with
        | zero => exact ⟨key, hfind, rfl⟩
        | succ i' =>
          have hi' : i' < rest.length := by simpa using hi
          simpa using hnth i' hi'

theorem dispatchResults_false_of_mem (outcome : Nat → Bool) :
    ∀ ds : List SpecDispatch, ∀ j, SpecDispatch.putRejected ∈ ds →
      false ∈ dispatchResults outcome ds j := by
  intro ds
  induction ds with
  | nil => intro j h; cases h
  | cons d rest ih =>
    intro j h
    rcases List.mem_cons.mp h with heq | hmem
    · subst heq
      exact List.mem_cons_self _ _
    · exact List.mem_cons_of_mem _ (ih (j + 1) hmem)

theorem specFinalStatus_err_of_false (results : List Bool)
    (h : false ∈ results) : specFinalStatus results = .backendErr := by
  have : results.all (fun b => b) = false := by
    rcases hall : results.all (fun b => b) with _ | _
    · rfl
    · exact absurd (List.all_eq_true.mp hall false h) (by decide)
  simp [specFinalStatus, this]

/-! ## Claim theorems: object-engine PUT offset and deregistration -/

/-- Claim C6: in the multi-descriptor object-engine post (modelled from
the spec) over the source `AwsS3Client`, a Write whose pair `i` has a
remote descriptor with non-zero address (non-zero object offset)
dispatches no upload for that pair — the client rejects it immediately,
invoking the callback with `false` — and once all callbacks have run
the handle latches `BackendError`, whatever the store's outcomes for
the other pairs. -/
theorem C6_put_offset_rejected (keyIndex : List (Nat × String))
    (pairs : List (ObjDescM × ObjDescM)) (ds : List SpecDispatch) (i : Nat)
    (hok : specObjPostXfer keyIndex .write pairs = .ok ds)
    (hi : i < pairs.length)
    (hoff : (pairs.getD i (⟨0, 0, 0, none⟩, ⟨0, 0, 0, none⟩)).2.addr ≠ 0) :
    ds.getD i (.putUpload "" 0 0) = .putRejected ∧
    ∀ outcome : Nat → Bool,
      specFinalStatus (dispatchResults outcome ds 0) = .backendErr := by
  obtain ⟨hlen, hnth⟩ := specObjPostXfer_ok_nth keyIndex pairs ds hok
  obtain ⟨key, hfind, hd⟩ := hnth i hi
  have hrej : ds.getD i (.putUpload "" 0 0) = .putRejected := by
    rw [hd, putObjectAsync, if_pos hoff]
  refine ⟨hrej, ?_⟩
  intro outcome
  have hmem : SpecDispatch.putRejected ∈ ds := by
    have hilen : i < ds.length := by rw [hlen]; exact hi
    have := List.getD_eq_getElem ds (.putUpload "" 0 0) hilen
    rw [this] at hrej
    rw [← hrej]
    exact List.getElem_mem hilen
  exact specFinalStatus_err_of_false _
    (dispatchResults_false_of_mem outcome ds 0 hmem)

/-- Witness for C6 at a concrete input: one pair, key "k" for device 2,
remote address (offset) 5. -/
theorem C6_put_offset_rejected_witness :
    specObjPostXfer [(2, "k")] .write
        [(⟨100, 4, 1, none⟩, ⟨5, 4, 2, none⟩)] = .ok [.putRejected] ∧
    ([SpecDispatch.putRejected] : List SpecDispatch).getD 0 (.putUpload "" 0 0)
      = .putRejected ∧
    specFinalStatus (dispatchResults (fun _ => true) [.putRejected] 0)
      = .backendErr := by
  have h := C6_put_offset_rejected [(2, "k")]
    [(⟨100, 4, 1, none⟩, ⟨5, 4, 2, none⟩)] [.putRejected] 0 rfl
    (by decide) (by decide)
  exact ⟨rfl, h.1, h.2 (fun _ => true)⟩

/-- Claim C7: after `deregister_memory` of an `Object` registration with
device id `d` (which erases `d` from `dev_id_to_obj_key`), the
deregistration reports `Success` and any subsequent multi-descriptor
`post_transfer` (modelled from the spec) one of whose remote
descriptors references `d` fails the key lookup and returns
`InvalidParam`. -/
theorem C7_dereg_then_post_invalid (keyIndex : List (Nat × String))
    (md : ObjMeta) (op : XferOp) (pairs : List (ObjDescM × ObjDescM))
    (r : ObjDescM)
    (hnd : (keyIndex.map Prod.fst).Nodup)
    (hmem : md.mem = .obj)
    (href : r ∈ pairs.map Prod.snd)
    (hdev : r.devId = md.devId) :
    (objDeregisterMem keyIndex md).1 = .success ∧
    specObjPostXfer (objDeregisterMem keyIndex md).2 op pairs
      = .error .invalidParam := by
  have hder : objDeregisterMem keyIndex md
      = (.success, indexErase keyIndex md.devId) := by
    simp [objDeregisterMem, hmem]
  refine ⟨by rw [hder], ?_⟩
  rw [hder]
  obtain ⟨p, hp, hpr⟩ := List.mem_map.mp href
  refine specObjPostXfer_err_of_missing _ op pairs ⟨p, hp, ?_⟩
  rw [hpr, hdev]
  exact indexFind_erase_self md.devId keyIndex hnd

/-- Witness for C7 at a concrete index: keys for devices 2 and 3,
deregister device 2, then post a Read referencing device 2. -/
theorem C7_dereg_then_post_invalid_witness :
    (objDeregisterMem [(2, "k"), (3, "m")] ⟨.obj, 2, "k"⟩).1 = .success ∧
    specObjPostXfer (objDeregisterMem [(2, "k"), (3, "m")] ⟨.obj, 2, "k"⟩).2
        .read [(⟨100, 4, 1, none⟩, ⟨0, 4, 2, none⟩)]
      = .error .invalidParam :=
  C7_dereg_then_post_invalid [(2, "k"), (3, "m")] ⟨.obj, 2, "k"⟩ .read
    [(⟨100, 4, 1, none⟩, ⟨0, 4, 2, none⟩)] ⟨0, 4, 2, none⟩
    (by decide) rfl (by decide) rfl

/-! ## UCX engine: request chains and `check_transfer`

`nixlUcxBackendH` owns an intrusive list of in-flight `nixlUcxIntReq`
slots, each with a `_completed` bit.  `nixlUcxWorker::test` is transport
code outside `src/`; modelled from the spec (§4.2 step 5, §7: a
sub-request is in progress until it completes, and a sub-request error
latches the handle to `BackendError`), a request is described by its
completion time `done` and final outcome `ok`, and `test` at time `n`
reports `InProgress` before `done` and the final status afterwards. -/

/-- Modelled from the spec: the completion schedule of one transport
request slot (`nixlUcxWorker::test` is not under `src/`): in progress
until time `done`, then permanently `Success` (`ok`) or `BackendError`
(`¬ok`). -/
structure UcxReqSched where
  done : Nat
  ok : Bool
deriving DecidableEq

/-- The result of `worker.test` on a request with schedule `r`, polled at time `n`. -/
def testReq (n : Nat) (r : UcxReqSched) : NixlStatus :=
  if n < r.done then .inProg else if r.ok then .success else .backendErr

/-- Embedding of a `nixlUcxIntReq` chain element: its schedule plus the
`_completed` bit set by `nixlUcxBackendH::status`. -/
structure UcxReqNode where
  sched : UcxReqSched
  completed : Bool
deriving DecidableEq

/-- The first walk of `nixlUcxBackendH::status`: visit the chain in
order; skip already-completed requests; `test` the others, marking those
that completed successfully, noting any still in progress, and
returning early — chain unchanged past the point reached, marks kept —
with the first error observed.  Result: (early error if any, "saw an
in-progress request", the chain after the walk). -/
def ucxWalk (n : Nat) : List UcxReqNode → Option NixlStatus × Bool × List UcxReqNode
  | [] => (none, false, [])
  | node :: rest =>
    if node.completed then
      let r := ucxWalk n rest
      (r.1, r.2.1, node :: r.2.2)
    else if testReq n node.sched = .success then
      let r := ucxWalk n rest
      (r.1, r.2.1, { node with completed := true } :: r.2.2)
    else if testReq n node.sched = .inProg then
      let r := ucxWalk n rest
      (r.1, true, node :: r.2.2)
    else (some (testReq n node.sched), false, node :: rest)

/-- Embedding of `nixlUcxBackendH::status` at poll time `n`: an empty
chain reports `Success`; otherwise the chain is walked — an early error
is returned with the chain as the walk left it, else the completed
requests are released (removed, order of the rest preserved) and the
call reports `InProgress` while any request remains in flight,
`Success` otherwise.  `nixlUcxEngine::checkXfer` is exactly this
call. -/
def ucxStatus (n : Nat) (chain : List UcxReqNode) :
    NixlStatus × List UcxReqNode :=
  match chain with
  | [] => (.success, [])
  | node :: rest =>
    match ucxWalk n (node :: rest) with
    | (some e, _, chain') => (e, chain')
    | (none, sawProg, chain') =>
      ((if sawProg then .inProg else .success),
        chain'.filter (fun nd => !nd.completed))

/-- The statuses returned by successive `check_transfer` calls at the
(nondecreasing) poll times `ts`, threading the handle's chain through
the calls. -/
def runChecks : List Nat → List UcxReqNode → List NixlStatus
  | [], _ => []
  | n :: rest, chain =>
    (ucxStatus n chain).1 :: runChecks rest (ucxStatus n chain).2

/-- A status sequence latches: any non-`InProgress` value is repeated by
every later position. -/
def statusLatched (l : List NixlStatus) : Prop :=
  ∀ i j : Nat, i < j → j < l.length →
    l.getD i .inProg ≠ .inProg → l.getD j .inProg = l.getD i .inProg

/-- A completed-marked node was seen to complete successfully no later
than time `n`; `nixlUcxBackendH::status` only ever marks such nodes. -/
def nodeOkAt (n : Nat) (node : UcxReqNode) : Prop :=
  node.completed = true → node.sched.done ≤ n ∧ node.sched.ok = true

/-- Chain-wide version of `nodeOkAt`. -/
def chainInv (n : Nat) (chain : List UcxReqNode) : Prop :=
  ∀ node ∈ chain, nodeOkAt n node

instance (n : Nat) (node : UcxReqNode) : Decidable (nodeOkAt n node) := by
  unfold nodeOkAt
  infer_instance

instance (n : Nat) (chain : List UcxReqNode) : Decidable (chainInv n chain) := by
  unfold chainInv
  infer_instance

/-- The chain holds an unreleased request that has already failed by
time `n`; such a request pins every later `status` call to
`BackendError`. -/
def errAt (n : Nat) (chain : List UcxReqNode) : Prop :=
  ∃ node ∈ chain,
    node.completed = false ∧ node.sched.ok = false ∧ node.sched.done ≤ n

/-! ## Object engine: `check_transfer` dynamics

`nixlObjEngine::checkXfer` returns `status_` once `completed_` is set
and `InProgress` before.  The S3 completion callback (which stores
`Success` on `outcome.IsSuccess()` and `BackendError` otherwise, then
sets `completed_`) is abstracted by its run time `done` and outcome
`ok`; a transfer whose callback never runs is a schedule with `done`
beyond every poll time. -/

/-- The asynchronous state behind an object-engine handle: when the S3
callback runs (`done`) and whether the outcome was success (`ok`). -/
structure ObjAsyncState where
  done : Nat
  ok : Bool
deriving DecidableEq

/-- Embedding of `nixlObjEngine::checkXfer` polled at time `n`. -/
def objCheckXfer (n : Nat) (st : ObjAsyncState) : NixlStatus :=
  if n < st.done then .inProg else if st.ok then .success else .backendErr

/-! ## Lemmas about `testReq` -/

theorem testReq_cases (n : Nat) (s : UcxReqSched) :
    testReq n s = .inProg ∨ testReq n s = .success ∨ testReq n s = .backendErr := by
  unfold testReq
  split_ifs <;> simp

theorem testReq_success_iff (n : Nat) (s : UcxReqSched) :
    testReq n s = .success ↔ s.done ≤ n ∧ s.ok = true := by
  unfold testReq
  split_ifs with h1 h2
  · exact ⟨fun h => absurd h (by decide), fun h => absurd h1 (not_lt.mpr h.1)⟩
  · exact ⟨fun _ => ⟨by omega, h2⟩, fun _ => rfl⟩
  · exact ⟨fun h => absurd h (by decide), fun h => absurd h.2 (by simp [h2])⟩

theorem testReq_backendErr_iff (n : Nat) (s : UcxReqSched) :
    testReq n s = .backendErr ↔ s.done ≤ n ∧ s.ok = false := by
  unfold testReq
  split_ifs with h1 h2
  · exact ⟨fun h => absurd h (by decide), fun h => absurd h1 (not_lt.mpr h.1)⟩
  · exact ⟨fun h => absurd h (by decide), fun h => absurd h.2 (by simp [h2])⟩
  · exact ⟨fun _ => ⟨by omega, by simpa using h2⟩, fun _ => rfl⟩

/-! ## Lemmas about the status walk -/

theorem ucxWalk_err_val (n : Nat) :
    ∀ chain : List UcxReqNode, ∀ e, (ucxWalk n chain).1 = some e →
      e = .backendErr := by
  intro chain
  induction chain with
  | nil => intro e h; cases h
  | cons node rest ih =>
    intro e h
    simp only [ucxWalk] at h
    split_ifs at h with h1 h2 h3
    · exact ih e h
    · exact ih e h
    · exact ih e h
    · rcases testReq_cases n node.sched with hc | hc | hc
      · exact absurd hc h3
      · exact absurd hc h2
      · cases h
        exact hc

theorem ucxWalk_inv (n : Nat) :
    ∀ chain : List UcxReqNode, chainInv n chain →
      chainInv n (ucxWalk n chain).2.2 := by
  intro chain
  induction chain with
  | nil => intro _; exact fun node h => absurd h (List.not_mem_nil node)
  | cons node rest ih =>
    intro hinv
    have hrest : chainInv n rest := fun nd h => hinv nd (List.mem_cons_of_mem _ h)
    have hnode : nodeOkAt n node := hinv node (List.mem_cons_self _ _)
    simp only [ucxWalk]
    split_ifs with h1 h2 h3
    · intro nd hm
      rcases List.mem_cons.mp hm with he | hm'
      · rw [he]; exact hnode
      · exact ih hrest nd hm'
    · intro nd hm
      rcases List.mem_cons.mp hm with he | hm'
      · rw [he]
        intro _
        exact (testReq_success_iff n node.sched).mp h2
      · exact ih hrest nd hm'
    · intro nd hm
      rcases List.mem_cons.mp hm with he | hm'
      · rw [he]; exact hnode
      · exact ih hrest nd hm'
    · intro nd hm
      rcases List.mem_cons.mp hm with he | hm'
      · rw [he]; exact hnode
      · exact hrest nd hm'

theorem ucxWalk_err_of_errAt (n : Nat) :
    ∀ chain : List UcxReqNode, errAt n chain →
      (ucxWalk n chain).1 = some .backendErr ∧ errAt n (ucxWalk n chain).2.2 := by
  intro chain
  induction chain with
  | nil => rintro ⟨node, hm, _⟩; cases hm
  | cons node rest ih =>
    rintro ⟨w, hw, hwc, hwo, hwd⟩
    by_cases hnodeerr : node.completed = false ∧ testReq n node.sched = .backendErr
    · simp only [ucxWalk, hnodeerr.1, Bool.false_eq_true, if_false, hnodeerr.2]
      refine ⟨by simp, node, List.mem_cons_self _ _, hnodeerr.1, ?_⟩
      have := (testReq_backendErr_iff n node.sched).mp hnodeerr.2
      exact ⟨this.2, this.1⟩
    · have hwrest : w ∈ rest := by
        rcases List.mem_cons.mp hw with he | hm'
        · exfalso
          apply hnodeerr
          rw [← he]
          exact ⟨hwc, (testReq_backendErr_iff n w.sched).mpr ⟨hwd, hwo⟩⟩
        · exact hm'
      obtain ⟨ih1, ih2⟩ := ih ⟨w, hwrest, hwc, hwo, hwd⟩
      obtain ⟨w', hw', hp'⟩ := ih2
      simp only [ucxWalk]
      split_ifs with h1 h2 h3
      · exact ⟨ih1, w', List.mem_cons_of_mem _ hw', hp'⟩
      · exact ⟨ih1, w', List.mem_cons_of_mem _ hw', hp'⟩
      · exact ⟨ih1, w', List.mem_cons_of_mem _ hw', hp'⟩
      · exfalso
        apply hnodeerr
        have h1' : node.completed = false := by
          cases hcompleted : node.completed with
          | false => rfl
          | true => exact absurd hcompleted h1
        rcases testReq_cases n node.sched with hc | hc | hc
        · exact absurd hc h3
        · exact absurd hc h2
        · exact ⟨h1', hc⟩

theorem ucxWalk_errAt_of_err (n : Nat) :
    ∀ chain : List UcxReqNode, ∀ e, (ucxWalk n chain).1 = some e →
      errAt n (ucxWalk n chain).2.2 := by
  intro chain
  induction chain with
  | nil => intro e h; cases h
  | cons node rest ih =>
    intro e h
    simp only [ucxWalk] at h ⊢
    split_ifs at h ⊢ with h1 h2 h3
    · obtain ⟨w, hw, hp⟩ := ih e h
      exact ⟨w, List.mem_cons_of_mem _ hw, hp⟩
    · obtain ⟨w, hw, hp⟩ := ih e h
      exact ⟨w, List.mem_cons_of_mem _ hw, hp⟩
    · obtain ⟨w, hw, hp⟩ := ih e h
      exact ⟨w, List.mem_cons_of_mem _ hw, hp⟩
    · have h1' : node.completed = false := by
        cases hcompleted : node.completed with
        | false => rfl
        | true => exact absurd hcompleted h1
      have hberr : testReq n node.sched = .backendErr := by
        rcases testReq_cases n node.sched with hc | hc | hc
        · exact absurd hc h3
        · exact absurd hc h2
        · exact hc
      have := (testReq_backendErr_iff n node.sched).mp hberr
      exact ⟨node, List.mem_cons_self _ _, h1', this.2, this.1⟩

theorem ucxWalk_all_completed (n : Nat) :
    ∀ chain : List UcxReqNode,
      (ucxWalk n chain).1 = none → (ucxWalk n chain).2.1 = false →
      ∀ node ∈ (ucxWalk n chain).2.2, node.completed = true := by
  intro chain
  induction chain with
  | nil => intro _ _ node h; cases h
  | cons node rest ih =>
    intro he hp nd hm
    simp only [ucxWalk] at he hp hm
    split_ifs at he hp hm with h1 h2 h3
    · rcases List.mem_cons.mp hm with heq | hm'
      · rw [heq]; exact h1
      · exact ih he hp nd hm'
    · rcases List.mem_cons.mp hm with heq | hm'
      · rw [heq]
      · exact ih he hp nd hm'

/-! ## Lemmas about `ucxStatus` -/

theorem chainInv_mono (n m : Nat) (chain : List UcxReqNode) (h : chainInv n chain)
    (hnm : n ≤ m) : chainInv m chain := by
  intro node hm hc
  obtain ⟨h1, h2⟩ := h node hm hc
  exact ⟨le_trans h1 hnm, h2⟩

theorem errAt_mono (n m : Nat) (chain : List UcxReqNode) (h : errAt n chain)
    (hnm : n ≤ m) : errAt m chain := by
  obtain ⟨node, hm, h1, h2, h3⟩ := h
  exact ⟨node, hm, h1, h2, le_trans h3 hnm⟩

theorem ucxStatus_val (n : Nat) (chain : List UcxReqNode) :
    (ucxStatus n chain).1 = .success ∨ (ucxStatus n chain).1 = .inProg ∨
      (ucxStatus n chain).1 = .backendErr := by
  cases chain with
  | nil => left; rfl
  | cons node rest =>
    simp only [ucxStatus]
    rcases hw : ucxWalk n (node :: rest) with ⟨e, sp, c'⟩
    cases e with
    | some e' =>
      have : e' = .backendErr := by
        have := ucxWalk_err_val n (node :: rest) e'
        rw [hw] at this
        exact this rfl
      right; right
      simp [this]
    | none =>
      cases sp with
      | true => right; left; rfl
      | false => left; rfl

theorem ucxStatus_inv (n : Nat) (chain : List UcxReqNode)
    (h : chainInv n chain) : chainInv n (ucxStatus n chain).2 := by
  cases chain with
  | nil => intro node hm; cases hm
  | cons node rest =>
    have hwi := ucxWalk_inv n (node :: rest) h
    simp only [ucxStatus]
    rcases hw : ucxWalk n (node :: rest) with ⟨e, sp, c'⟩
    rw [hw] at hwi
    cases e with
    | some e' => exact hwi
    | none =>
      intro nd hm
      exact hwi nd (List.mem_of_mem_filter hm)

theorem ucxStatus_err (n : Nat) (chain : List UcxReqNode) (h : errAt n chain) :
    (ucxStatus n chain).1 = .backendErr ∧ errAt n (ucxStatus n chain).2 := by
  cases chain with
  | nil =>
    obtain ⟨wit, hwit, _, _, _⟩ := h
    cases hwit
  | cons node rest =>
    obtain ⟨h1, h2⟩ := ucxWalk_err_of_errAt n (node :: rest) h
    simp only [ucxStatus]
    rcases hw : ucxWalk n (node :: rest) with ⟨e, sp, c'⟩
    rw [hw] at h1 h2
    cases e with
    | some e' =>
      cases h1
      exact ⟨rfl, h2⟩
    | none => cases h1

theorem ucxStatus_enter_err (n : Nat) (chain : List UcxReqNode)
    (h : (ucxStatus n chain).1 = .backendErr) :
    errAt n (ucxStatus n chain).2 := by
  cases chain with
  | nil => cases h
  | cons node rest =>
    simp only [ucxStatus] at h ⊢
    rcases hw : ucxWalk n (node :: rest) with ⟨e, sp, c'⟩
    rw [hw] at h
    cases e with
    | some e' =>
      have := ucxWalk_errAt_of_err n (node :: rest) e'
      rw [hw] at this
      exact this rfl
    | none =>
      exfalso
      cases sp with
      | true => simp at h
      | false => simp at h

theorem ucxStatus_success_empty (n : Nat) (chain : List UcxReqNode)
    (h : (ucxStatus n chain).1 = .success) : (ucxStatus n chain).2 = [] := by
  cases chain with
  | nil => rfl
  | cons node rest =>
    simp only [ucxStatus] at h ⊢
    rcases hw : ucxWalk n (node :: rest) with ⟨e, sp, c'⟩
    rw [hw] at h
    cases e with
    | some e' =>
      exfalso
      have he' : e' = .backendErr := by
        have := ucxWalk_err_val n (node :: rest) e'
        rw [hw] at this
        exact this rfl
      rw [he'] at h
      simp at h
    | none =>
      cases sp with
      | true => simp at h
      | false =>
        have hall := ucxWalk_all_completed n (node :: rest)
        rw [hw] at hall
        have hall' := hall rfl rfl
        show List.filter (fun nd => !nd.completed) c' = []
        rw [List.filter_eq_nil_iff]
        intro a ha
        simp [hall' a ha]

theorem ucxStatus_empty (n : Nat) : ucxStatus n [] = (.success, []) := rfl

/-! ## Lemmas about `runChecks` and `statusLatched` -/

theorem runChecks_nil_chain : ∀ ts : List Nat,
    runChecks ts [] = ts.map (fun _ => .success) := by
  intro ts
  induction ts with
  | nil => rfl
  | cons t rest ih => simp only [runChecks, ucxStatus_empty, ih, List.map_cons]

theorem runChecks_err :
    ∀ ts : List Nat, ∀ chain, ∀ n : Nat, ts.Pairwise (· ≤ ·) →
      (∀ t ∈ ts, n ≤ t) → errAt n chain →
      runChecks ts chain = ts.map (fun _ => .backendErr) := by
  intro ts
  induction ts with
  | nil => intro chain n _ _ _; rfl
  | cons t rest ih =>
    intro chain n hp hlo herr
    obtain ⟨hle, hp'⟩ := List.pairwise_cons.mp hp
    have herrt : errAt t chain :=
      errAt_mono n t chain herr (hlo t (List.mem_cons_self _ _))
    obtain ⟨hs, herr'⟩ := ucxStatus_err t chain herrt
    simp only [runChecks, hs, List.map_cons]
    rw [ih (ucxStatus t chain).2 t hp' hle herr']

theorem statusLatched_all_eq (s : NixlStatus) :
    ∀ l : List NixlStatus, (∀ x ∈ l, x = s) → statusLatched l := by
  intro l h i j hij hj hne
  have hi : i < l.length := lt_trans hij hj
  rw [List.getD_eq_getElem l _ hj, List.getD_eq_getElem l _ hi]
  rw [h _ (List.getElem_mem hj), h _ (List.getElem_mem hi)]

theorem statusLatched_cons_inProg :
    ∀ l, statusLatched l → statusLatched (.inProg :: l) := by
  intro l h i j hij hj hne
  cases i with
  | zero => exact absurd rfl hne
  | succ i' =>
    cases j with
    | zero => omega
    | succ j' =>
      simp only [List.getD_cons_succ] at hne ⊢
      exact h i' j' (by omega) (by simpa using hj) hne

theorem runChecks_latched :
    ∀ ts : List Nat, ∀ chain : List UcxReqNode, ∀ n0 : Nat,
      ts.Pairwise (· ≤ ·) → (∀ t ∈ ts, n0 ≤ t) → chainInv n0 chain →
      statusLatched (runChecks ts chain) := by
  intro ts
  induction ts with
  | nil =>
    intro chain n0 _ _ _ i j hij hj hne
    simp [runChecks] at hj
  | cons t rest ih =>
    intro chain n0 hp hlo hinv
    obtain ⟨hle, hp'⟩ := List.pairwise_cons.mp hp
    have hinvt : chainInv t chain :=
      chainInv_mono n0 t chain hinv (hlo t (List.mem_cons_self _ _))
    rcases ucxStatus_val t chain with hs | hs | hs
    · have hemp := ucxStatus_success_empty t chain hs
      simp only [runChecks, hs, hemp, runChecks_nil_chain]
      apply statusLatched_all_eq .success
      intro x hx
      rcases List.mem_cons.mp hx with h1 | h2
      · exact h1
      · obtain ⟨u, _, hux⟩ := List.mem_map.mp h2
        exact hux.symm
    · simp only [runChecks, hs]
      exact statusLatched_cons_inProg _
        (ih (ucxStatus t chain).2 t hp' hle (ucxStatus_inv t chain hinvt))
    · have herr := ucxStatus_enter_err t chain hs
      simp only [runChecks, hs,
        runChecks_err rest (ucxStatus t chain).2 t hp' hle herr]
      apply statusLatched_all_eq .backendErr
      intro x hx
      rcases List.mem_cons.mp hx with h1 | h2
      · exact h1
      · obtain ⟨u, _, hux⟩ := List.mem_map.mp h2
        exact hux.symm

theorem runChecks_vals :
    ∀ ts : List Nat, ∀ chain, ∀ s ∈ runChecks ts chain,
      s = .success ∨ s = .inProg ∨ s = .backendErr := by
  intro ts
  induction ts with
  | nil => intro chain s h; cases h
  | cons t rest ih =>
    intro chain s h
    rcases List.mem_cons.mp h with h1 | h2
    · rw [h1]; exact ucxStatus_val t chain
    · exact ih _ s h2

/-! ## Lemmas about the object-engine check -/

theorem objCheckXfer_latch (st : ObjAsyncState) (n m : Nat) (hnm : n ≤ m)
    (h : objCheckXfer n st ≠ .inProg) : objCheckXfer m st = objCheckXfer n st := by
  unfold objCheckXfer at h ⊢
  by_cases h1 : n < st.done
  · exact absurd (if_pos h1) h
  · have h2 : ¬ m < st.done := by omega
    rw [if_neg h1, if_neg h2]

theorem objCheckXfer_val (st : ObjAsyncState) (n : Nat) :
    objCheckXfer n st = .success ∨ objCheckXfer n st = .inProg ∨
      objCheckXfer n st = .backendErr := by
  unfold objCheckXfer
  split_ifs
  · right; left; rfl
  · left; rfl
  · right; right; rfl

theorem objCheckSeq_latched (st : ObjAsyncState) :
    ∀ ts : List Nat, ts.Pairwise (· ≤ ·) →
      statusLatched (ts.map (fun n => objCheckXfer n st)) := by
  intro ts
  induction ts with
  | nil => intro _ i j hij hj hne; simp at hj
  | cons t rest ih =>
    intro hp
    obtain ⟨hle, hp'⟩ := List.pairwise_cons.mp hp
    by_cases hs : objCheckXfer t st = .inProg
    · rw [List.map_cons, hs]
      exact statusLatched_cons_inProg _ (ih hp')
    · apply statusLatched_all_eq (objCheckXfer t st)
      intro x hx
      rw [List.map_cons] at hx
      rcases List.mem_cons.mp hx with h1 | h2
      · exact h1
      · obtain ⟨u, hu, hux⟩ := List.mem_map.mp h2
        rw [← hux]
        exact objCheckXfer_latch st t u (hle u hu) hs

/-! ## Claim theorem: check-status monotonicity -/

/-- Claim C4: for a transfer handle of either engine, polled at
nondecreasing times with no intervening release (the spec forbids
re-posting a handle), the sequence of `check_transfer` statuses draws
from `{Success, InProgress, BackendError}` and latches: once a call
returns a status other than `InProgress` — in particular any error —
every subsequent call returns that same status.  The RDMA handle is an
arbitrary request chain whose completed-marks predate the first poll;
the object handle is an arbitrary callback schedule. -/
theorem C4_check_transfer_monotone (ts : List Nat) (chain : List UcxReqNode)
    (n0 : Nat) (st : ObjAsyncState)
    (hts : ts.Pairwise (· ≤ ·))
    (hlo : ∀ t ∈ ts, n0 ≤ t)
    (hinv : chainInv n0 chain) :
    statusLatched (runChecks ts chain) ∧
    (∀ s ∈ runChecks ts chain,
      s = .success ∨ s = .inProg ∨ s = .backendErr) ∧
    statusLatched (ts.map (fun n => objCheckXfer n st)) ∧
    (∀ s ∈ ts.map (fun n => objCheckXfer n st),
      s = .success ∨ s = .inProg ∨ s = .backendErr) := by
  refine ⟨runChecks_latched ts chain n0 hts hlo hinv,
    fun s hs => runChecks_vals ts chain s hs,
    objCheckSeq_latched st ts hts, ?_⟩
  intro s hs
  obtain ⟨u, _, hux⟩ := List.mem_map.mp hs
  rw [← hux]
  exact objCheckXfer_val st u

/-- Witness for C4: two chained requests (success at time 2, failure at
time 5) polled at times 0, 3, 9, and an object callback finishing
successfully at time 4. -/
theorem C4_check_transfer_monotone_witness :
    ([0, 3, 9] : List Nat).Pairwise (· ≤ ·) ∧
    chainInv 0 [⟨⟨2, true⟩, false⟩, ⟨⟨5, false⟩, false⟩] ∧
    statusLatched (runChecks [0, 3, 9] [⟨⟨2, true⟩, false⟩, ⟨⟨5, false⟩, false⟩]) ∧
    statusLatched (([0, 3, 9] : List Nat).map (fun n => objCheckXfer n ⟨4, true⟩)) := by
  have h := C4_check_transfer_monotone [0, 3, 9]
    [⟨⟨2, true⟩, false⟩, ⟨⟨5, false⟩, false⟩] 0 ⟨4, true⟩
    (by decide) (by decide) (by decide)
  exact ⟨by decide, by decide, h.1, h.2.2.1⟩

/-! ## UCX engine: `post_transfer`

`nixlUcxEngine::postXfer` rejects length-mismatched descriptor lists,
then walks the pairs in order: the pair's lengths are compared before
its one-sided read/write is issued, and `_retHelper` either discards a
synchronously-completed request, chains a pending one, or — on a
submission error — releases the whole chain and aborts the post with
that error.  Submission outcomes are the oracle `subRes`; a pending
request's later completion schedule is the oracle `sched`. -/

/-- A UCX transfer descriptor (`addr`/`len` of a `nixlMetaDesc`; the
registration metadata enters only through the submission oracle). -/
structure UcxDesc where
  addr : Nat
  len : Nat
deriving DecidableEq

/-- Embedding of `_retHelper`: a pending (`InProgress`) request is
appended to the handle's chain, a synchronously-completed one is
dropped, and an error releases the chain and propagates. -/
def afterOp (chain : List UcxReqNode) (res : NixlStatus) (s : UcxReqSched) :
    Option NixlStatus × List UcxReqNode :=
  match res with
  | .inProg => (none, chain ++ [⟨s, false⟩])
  | .success => (none, chain)
  | e => (some e, [])

/-- The descriptor loop of `postXfer`: pair `i`'s lengths are checked
(`InvalidParam` on mismatch, chain kept as is), then its one-sided
operation is submitted and handled by `_retHelper`. -/
def ucxPostLoop (subRes : Nat → NixlStatus) (sched : Nat → UcxReqSched) :
    List (UcxDesc × UcxDesc) → Nat → List UcxReqNode →
      Option NixlStatus × List UcxReqNode
  | [], _, chain => (none, chain)
  | (l, r) :: rest, i, chain =>
    if l.len ≠ r.len then (some .invalidParam, chain)
    else
      match afterOp chain (subRes i) (sched i) with
      | (some e, chain') => (some e, chain')
      | (none, chain') => ucxPostLoop subRes sched rest (i + 1) chain'

/-- Embedding of `nixlUcxEngine::postXfer` at post time `n`: unequal
list lengths are `InvalidParam`; then the descriptor loop runs on the
zipped lists; then an endpoint flush and (when requested) a `NOTIF_STR`
active message are submitted through the same `_retHelper`; finally the
handle's `status()` is returned. -/
def ucxPostXfer (n : Nat) (subRes : Nat → NixlStatus) (sched : Nat → UcxReqSched)
    (flushRes : NixlStatus) (flushSched : UcxReqSched)
    (hasNotif : Bool) (notifRes : NixlStatus) (notifSched : UcxReqSched)
    (localD remoteD : List UcxDesc) : NixlStatus × List UcxReqNode :=
  if localD.length ≠ remoteD.length then (.invalidParam, [])
  else
    match ucxPostLoop subRes sched (localD.zip remoteD) 0 [] with
    | (some e, chain) => (e, chain)
    | (none, chain) =>
      match afterOp chain flushRes flushSched with
      | (some e, chain') => (e, chain')
      | (none, chain') =>
        if hasNotif then
          match afterOp chain' notifRes notifSched with
          | (some e, chain2) => (e, chain2)
          | (none, chain2) => ucxStatus n chain2
        else ucxStatus n chain'

/-! ## Lemmas about the post loop -/

theorem afterOp_ok (chain : List UcxReqNode) (res : NixlStatus)
    (s : UcxReqSched) (h : isErr res = false) :
    (afterOp chain res s).1 = none := by
  cases res with
  | inProg => rfl
  | success => rfl
  | invalidParam => cases h
  | notFound => cases h
  | notSupported => cases h
  | backendErr => cases h

theorem ucxPostLoop_invalid (subRes : Nat → NixlStatus)
    (sched : Nat → UcxReqSched) :
    ∀ pairs : List (UcxDesc × UcxDesc), ∀ i chain, ∀ m : Nat,
      m < pairs.length →
      (pairs.getD m (⟨0, 0⟩, ⟨0, 0⟩)).1.len
        ≠ (pairs.getD m (⟨0, 0⟩, ⟨0, 0⟩)).2.len →
      (∀ j, j < m → (pairs.getD j (⟨0, 0⟩, ⟨0, 0⟩)).1.len
        = (pairs.getD j (⟨0, 0⟩, ⟨0, 0⟩)).2.len) →
      (∀ j, j < m → isErr (subRes (i + j)) = false) →
      (ucxPostLoop subRes sched pairs i chain).1 = some .invalidParam := by
  intro pairs
  induction pairs with
  | nil => intro i chain m hm; exact absurd hm (by simp)
  | cons head rest ih =>
    intro i chain m hm hmis hpre hok
    obtain ⟨l, r⟩ := head
    cases m with
    | zero =>
      simp only [List.getD_cons_zero] at hmis
      simp only [ucxPostLoop, if_pos hmis]
    | succ m' =>
      have hhead : l.len = r.len := by
        have := hpre 0 (Nat.succ_pos m')
        simpa using this
      have hsub : isErr (subRes i) = false := by
        have := hok 0 (Nat.succ_pos m')
        simpa using this
      simp only [ucxPostLoop, if_neg (not_not.mpr hhead)]
      rcases ha : afterOp chain (subRes i) (sched i) with ⟨e, chain'⟩
      have he : e = none := by
        have := afterOp_ok chain (subRes i) (sched i) hsub
        rw [ha] at this
        exact this
      rw [he]
      have hm' : m' < rest.length := by simpa using hm
      simp only [List.getD_cons_succ] at hmis
      refine ih (i + 1) chain' m' hm' hmis
        (fun j hjm => by
          have := hpre (j + 1) (by omega)
          simpa [List.getD_cons_succ] using this)
        (fun j hjm => by
          have h2 := hok (j + 1) (by omega)
          have hidx : i + (j + 1) = i + 1 + j := by omega
          rwa [hidx] at h2)

/-! ## Claim theorems: `post_transfer` parameter validation -/

/-- Claim C5, counterexample: with paired lists of equal length whose
second pair has mismatched lengths (4 vs 8), but whose first submission
fails with a transport error, `postXfer` returns that `BackendError`
(after releasing the chain) — not `InvalidParam` — because the
per-pair length check is interleaved with submission and the loop
aborts at the failed first pair before reaching the mismatched one. -/
theorem C5_post_invalid_param_counterexample :
    ucxPostXfer 0 (fun _ => .backendErr) (fun _ => ⟨0, true⟩) .inProg ⟨0, true⟩
        false .success ⟨0, true⟩ [⟨0, 4⟩, ⟨0, 8⟩] [⟨0, 4⟩, ⟨0, 4⟩]
      = (.backendErr, []) ∧
    (([⟨0, 4⟩, ⟨0, 8⟩] : List UcxDesc).getD 1 ⟨0, 0⟩).len
      ≠ (([⟨0, 4⟩, ⟨0, 4⟩] : List UcxDesc).getD 1 ⟨0, 0⟩).len ∧
    NixlStatus.backendErr ≠ NixlStatus.invalidParam := by
  refine ⟨rfl, by decide, by decide⟩

/-- Claim C5 as amended: `postXfer` returns `InvalidParam` whenever the
local and remote descriptor lists have different lengths, and — when
the lengths agree — whenever some index `m` has
`local[m].len ≠ remote[m].len` and every submission before the first
such index was accepted (no transport error); a transport error at an
earlier index instead aborts the post with that error. -/
theorem C5_post_invalid_param_amended (n : Nat) (subRes : Nat → NixlStatus)
    (sched : Nat → UcxReqSched) (flushRes : NixlStatus) (flushSched : UcxReqSched)
    (hasNotif : Bool) (notifRes : NixlStatus) (notifSched : UcxReqSched)
    (localD remoteD : List UcxDesc) :
    (localD.length ≠ remoteD.length →
      ucxPostXfer n subRes sched flushRes flushSched hasNotif notifRes
          notifSched localD remoteD = (.invalidParam, [])) ∧
    (localD.length = remoteD.length →
      ∀ m : Nat, m < localD.length →
      (localD.getD m ⟨0, 0⟩).len ≠ (remoteD.getD m ⟨0, 0⟩).len →
      (∀ j, j < m → (localD.getD j ⟨0, 0⟩).len = (remoteD.getD j ⟨0, 0⟩).len) →
      (∀ j, j < m → isErr (subRes j) = false) →
      (ucxPostXfer n subRes sched flushRes flushSched hasNotif notifRes
          notifSched localD remoteD).1 = .invalidParam) := by
  constructor
  · intro hne
    simp only [ucxPostXfer, if_pos hne]
  · intro heq m hml hmis hpre hok
    have hget : ∀ k, k < localD.length →
        (localD.zip remoteD).getD k (⟨0, 0⟩, ⟨0, 0⟩)
          = (localD.getD k ⟨0, 0⟩, remoteD.getD k ⟨0, 0⟩) := by
      intro k hk
      have hkr : k < remoteD.length := by omega
      have hkz : k < (localD.zip remoteD).length := by
        rw [List.length_zip]; omega
      rw [List.getD_eq_getElem _ _ hkz, List.getD_eq_getElem _ _ hk,
        List.getD_eq_getElem _ _ hkr, List.getElem_zip]
    have hzlen : (localD.zip remoteD).length = localD.length := by
      rw [List.length_zip]; omega
    have hmz : m < (localD.zip remoteD).length := by omega
    have hloop := ucxPostLoop_invalid subRes sched (localD.zip remoteD) 0 [] m
      hmz
      (by rw [hget m hml]; exact hmis)
      (fun j hjm => by
        rw [hget j (by omega)]
        exact hpre j hjm)
      (fun j hjm => by simpa using hok j hjm)
    simp only [ucxPostXfer, if_neg (not_not.mpr heq)]
    rcases hl : ucxPostLoop subRes sched (localD.zip remoteD) 0 [] with ⟨e, chain⟩
    rw [hl] at hloop
    simp only at hloop
    rw [hloop]

/-- Witness for C5 as amended: both branches at concrete inputs —
lists of lengths 1 and 2 (length mismatch), and equal-length lists with
a mismatched second pair and accepted first submission. -/
theorem C5_post_invalid_param_amended_witness :
    ucxPostXfer 0 (fun _ => .inProg) (fun _ => ⟨0, true⟩) .inProg ⟨0, true⟩
        false .success ⟨0, true⟩ [⟨0, 4⟩] [⟨0, 4⟩, ⟨0, 4⟩]
      = (.invalidParam, []) ∧
    (ucxPostXfer 0 (fun _ => .inProg) (fun _ => ⟨0, true⟩) .inProg ⟨0, true⟩
        false .success ⟨0, true⟩ [⟨0, 4⟩, ⟨0, 8⟩] [⟨0, 4⟩, ⟨0, 5⟩]).1
      = .invalidParam := by
  constructor
  · exact (C5_post_invalid_param_amended 0 (fun _ => .inProg) (fun _ => ⟨0, true⟩)
      .inProg ⟨0, true⟩ false .success ⟨0, true⟩ [⟨0, 4⟩] [⟨0, 4⟩, ⟨0, 4⟩]).1
      (by decide)
  · exact (C5_post_invalid_param_amended 0 (fun _ => .inProg) (fun _ => ⟨0, true⟩)
      .inProg ⟨0, true⟩ false .success ⟨0, true⟩ [⟨0, 4⟩, ⟨0, 8⟩]
      [⟨0, 4⟩, ⟨0, 5⟩]).2 rfl 1 (by decide) (by decide)
      (fun j hjm => by
        have hj0 : j = 0 := by omega
        subst hj0
        decide)
      (fun j hjm => rfl)

end Nixl
